import Mathlib

/-!
Verification of the codeyak / code-reviewer guidelines-resolution and review
pipeline against its natural-language specification.

The development embeds, as executable Lean definitions:
  * the `Guideline` value object and its construction-time validation
    (`src/codeyak/domain/models.py` and `src/codeyak/core/guidelines/models.py`,
    which contain textually identical validators);
  * the diff batching function `create_file_groups`
    (`src/code-reviewer/core/grouping.py`);
  * the duplicate-violation filter (`MRComment.overlaps_with_violation` in
    `src/codeyak/domain/models.py` and `CodeReviewer._filter_existing_violations`
    in `src/codeyak/services/reviewer.py`);
  * the feedback publisher `FeedbackPublisher.post_feedback`
    (`src/codeyak/services/feedback.py`);
  * the guidelines parser and manager.  The modules
    `codeyak/core/guidelines/parser.py` and `codeyak/core/guidelines/manager.py`
    are absent from the source tree (only their tests and the exception /
    model modules remain), so those definitions are modelled from the
    specification, as marked in their doc comments.

File-system access is modelled by an explicit association list from paths to
already-parsed YAML documents; exceptions are modelled by `Except` with a
structured error type mirroring the spec's error taxonomy (§7, §9).
-/

namespace CodeYak

/-! ## Guideline value object (from `codeyak/domain/models.py`) -/

/-- One review rule: a namespaced identifier and a description.
Mirrors the pydantic model `Guideline` (fields `id`, `description`). -/
structure Guideline where
  id : String
  description : String
deriving Repr, DecidableEq

/-- Characters admitted by the character class `[a-z0-9-]` of the id regex
(ASCII lowercase letters, ASCII digits, hyphen). -/
def idCharOk (c : Char) : Bool :=
  c.isLower || c.isDigit || c = '-'

/-- Split a character list at its first `'/'`, returning the part before and
after it; `none` when no `'/'` occurs.  Used to evaluate the anchored regex
`^[a-z0-9-]+/[a-z0-9-]+$` (the class `[a-z0-9-]` cannot match `'/'`, so a
match must split at the unique slash). -/
def findSlashSplit : List Char → Option (List Char × List Char)
  | [] => none
  | c :: cs =>
    if c = '/' then some ([], cs)
    else
      match findSlashSplit cs with
      | some (a, b) => some (c :: a, b)
      | none => none

/-- A nonempty run of `[a-z0-9-]` characters (one regex segment `[a-z0-9-]+`). -/
def idSeg (l : List Char) : Bool :=
  !l.isEmpty && l.all idCharOk

/-- The pattern `[a-z0-9-]+/[a-z0-9-]+` matches the whole character list. -/
def matchOneLine (l : List Char) : Bool :=
  match findSlashSplit l with
  | some (a, b) => idSeg a && idSeg b
  | none => false

/-- `re.match(r'^[a-z0-9-]+/[a-z0-9-]+$', s)` succeeds, as evaluated by
`Guideline.validate_id_format`.  Python's `$` (without `re.MULTILINE`)
matches at the end of the string or just before one newline at the end of
the string, so the pattern also accepts the id followed by a single
trailing `'\n'`. -/
def matchesIdFormat (s : String) : Bool :=
  matchOneLine s.data ||
    (if s.data.getLast? = some '\n' then matchOneLine s.data.dropLast else false)

/-- Python's `str.isspace()` for one character: the Unicode whitespace set
`str.strip()` removes — `\t \n \v \f \r`, U+001C–U+001F, space, U+0085
(NEL), U+00A0 (NBSP), U+1680, U+2000–U+200A, U+2028, U+2029, U+202F,
U+205F and U+3000. -/
def pyIsSpace (c : Char) : Bool :=
  let n := c.toNat
  (9 ≤ n && n ≤ 13) || (28 ≤ n && n ≤ 31) || n = 32 || n = 0x85 || n = 0xA0 ||
  n = 0x1680 || (0x2000 ≤ n && n ≤ 0x200A) || n = 0x2028 || n = 0x2029 ||
  n = 0x202F || n = 0x205F || n = 0x3000

/-- Python's `str.strip()`: drop leading and trailing characters for which
`str.isspace()` holds. -/
def pyStrip (s : String) : String :=
  String.mk (((s.data.dropWhile pyIsSpace).reverse.dropWhile
    pyIsSpace).reverse)

/-- Construct a `Guideline`, running the two pydantic field validators of
`Guideline` (`validate_id_format`, `validate_description`): the id must be a
non-empty string matching `^[a-z0-9-]+/[a-z0-9-]+$`; the description must be
non-empty with trimmed length at least 10, and is stored trimmed.
Returns `none` when pydantic would raise a validation error. -/
def mkGuideline (id description : String) : Option Guideline :=
  if !matchesIdFormat id then none
  else if (pyStrip description).length < 10 then none
  else some ⟨id, pyStrip description⟩

/-- Specification-side reading of the id format (§4.1): the character list
decomposes as `prefix/label` with both segments nonempty and drawn from
`[a-z0-9-]`. -/
def SpecIdFormatL (l : List Char) : Prop :=
  ∃ a b : List Char, l = a ++ '/' :: b ∧ a ≠ [] ∧ b ≠ [] ∧
    (∀ c ∈ a, idCharOk c) ∧ (∀ c ∈ b, idCharOk c)

/-- Specification-side reading of what `re.match(r'^...$')` accepts in
Python: the `prefix/label` decomposition of the whole string, or of the
string with one trailing newline removed (`$` matches just before a final
`'\n'`). -/
def PySpecIdFormat (s : String) : Prop :=
  SpecIdFormatL s.data ∨ ∃ l, s.data = l ++ ['\n'] ∧ SpecIdFormatL l

/-! ## Diff grouping (from `code-reviewer/core/grouping.py`) -/

/-- The raw code changes to check (`FileDiff`): file path and diff text.
The mutable debug field `tokens` set inside `create_file_groups` is not
observable in its result and is omitted. -/
structure FileDiff where
  file_path : String
  diff_content : String
deriving Repr, DecidableEq

/-- An ordered batch of `FileDiff`s with a sequential id and an approximate
token count (`FileGroup`). -/
structure FileGroup where
  files : List FileDiff
  group_id : Nat
  total_tokens : Nat
deriving Repr, DecidableEq

/-- `MAX_CHARS_PER_GROUP = 42000` (12,000 tokens × 3.5 chars/token). -/
def MAX_CHARS_PER_GROUP : Nat := 42000

/-- `content_len = len(diff.file_path) + len(diff.diff_content)`. -/
def diffSize (d : FileDiff) : Nat :=
  d.file_path.length + d.diff_content.length

/-- `int(chars / 3.5)`: truncated division by 3.5 on a nonnegative count. -/
def approxTokens (chars : Nat) : Nat := (2 * chars) / 7

/-- The loop body of `create_file_groups`: state is the pending batch, its
character count, and the next group id; diffs are taken in input order. -/
def createFileGroupsAux : List FileDiff → List FileDiff → Nat → Nat → List FileGroup
  | [], batch, chars, gid =>
    if batch.isEmpty then []
    else [⟨batch, gid, approxTokens chars⟩]
  | d :: rest, batch, chars, gid =>
    let n := diffSize d
    if !batch.isEmpty && decide (chars + n > MAX_CHARS_PER_GROUP) then
      ⟨batch, gid, approxTokens chars⟩ :: createFileGroupsAux rest [d] n (gid + 1)
    else
      createFileGroupsAux rest (batch ++ [d]) (chars + n) gid

/-- `create_file_groups(diffs)`: greedy in-order batching under the
`MAX_CHARS_PER_GROUP` character budget, group ids starting at 1. -/
def create_file_groups (diffs : List FileDiff) : List FileGroup :=
  createFileGroupsAux diffs [] 0 1

/-- Aggregate size of a batch. -/
def sumSizes (l : List FileDiff) : Nat := (l.map diffSize).sum

/-- Batch invariants threaded by the grouping loop: `chars` is the batch's
aggregate size; a batch of individually in-budget files is in budget; an
over-budget file sits alone in its batch. -/
def BatchInv (batch : List FileDiff) (chars : Nat) : Prop :=
  chars = sumSizes batch ∧
  ((∀ f ∈ batch, diffSize f ≤ MAX_CHARS_PER_GROUP) → chars ≤ MAX_CHARS_PER_GROUP) ∧
  (∀ f ∈ batch, MAX_CHARS_PER_GROUP < diffSize f → batch = [f])

/-! ## Duplicate-violation filter
(from `codeyak/domain/models.py` and `codeyak/services/reviewer.py`) -/

/-- A merge-request comment as consumed by the duplicate filter
(`MRComment`): optional inline-position data, optional parsed guideline id,
and the `is_inline` flag.  `id`, `body`, `author` and `created_at` are never
read by the filter and are omitted.  Python's falsy test on the optional
string fields is modelled by treating `some ""` like a falsy value where the
source uses `not self.field`. -/
structure MRComment where
  file_path : Option String
  line_number : Option Int
  guideline_id : Option String
  is_inline : Bool
deriving Repr, DecidableEq

/-- A violation reported by the LLM (`GuidelineViolation`).  `reasoning` is
carried but never inspected by the filter or publisher logic modelled here. -/
structure GuidelineViolation where
  file_path : String
  line_number : Int
  guideline_id : String
  reasoning : String
  confidence : String
deriving Repr, DecidableEq

/-- `MRComment.overlaps_with_violation`: requires position data on the
comment, equal file paths, equal guideline id when the comment carries a
truthy one, and line distance within the fixed tolerance of 10. -/
def overlaps_with_violation (c : MRComment) (v : GuidelineViolation) : Bool :=
  match c.file_path, c.line_number with
  | some fp, some ln =>
    if fp = "" then false                    -- `if not self.file_path`
    else if fp ≠ v.file_path then false      -- file path must match
    else if (match c.guideline_id with       -- `if self.guideline_id and ...`
             | some g => g ≠ "" && g ≠ v.guideline_id
             | none => false) then false
    else (ln - v.line_number).natAbs ≤ 10    -- line tolerance 10
  | _, _ => false                            -- missing file_path or line_number

/-- `CodeReviewer._filter_existing_violations`: returns the violations that
overlap no existing comment, in order, together with the count of violations
before filtering.  The function builds a new list; its inputs are values and
are not mutated. -/
def filter_existing_violations (violations : List GuidelineViolation)
    (existing_comments : List MRComment) : List GuidelineViolation × Nat :=
  (violations.filter
      (fun v => !(existing_comments.any (fun c => overlaps_with_violation c v))),
    violations.length)

/-- The duplicate condition exactly as claim C5 states it: some comment is
inline, has the violation's file path, a parsed rule id that (when present)
equals the violation's rule id, and a line within distance 10. -/
def claimC5Duplicate (v : GuidelineViolation) (comments : List MRComment) : Bool :=
  comments.any fun c =>
    c.is_inline &&
    c.file_path == some v.file_path &&
    (match c.guideline_id with
     | some g => g == v.guideline_id
     | none => true) &&
    (match c.line_number with
     | some ln => (ln - v.line_number).natAbs ≤ 10
     | none => false)

/-- The duplicate condition with the correction the source forces: the
`is_inline` flag is never consulted; what is required is a non-empty recorded
file path equal to the violation's, a recorded line number within distance
10, and agreement with the parsed rule id when one is present and non-empty. -/
def amendedDuplicate (c : MRComment) (v : GuidelineViolation) : Bool :=
  (match c.file_path with
   | some fp => fp ≠ "" && fp == v.file_path
   | none => false) &&
  (match c.line_number with
   | some ln => (ln - v.line_number).natAbs ≤ 10
   | none => false) &&
  (match c.guideline_id with
   | some g => g == "" || g == v.guideline_id
   | none => true)

/-! ## Feedback publishing (from `codeyak/services/feedback.py`) -/

/-- Outcome of one attempt by the VCS client to post an inline comment for a
violation: success, `LineNotInDiffError` (after which a general comment is
attempted, itself succeeding or failing with `VCSCommentError`), or a plain
`VCSCommentError`. -/
inductive PostOutcome where
  | ok
  | lineNotInDiff (generalOk : Bool)
  | vcsError
deriving Repr, DecidableEq

/-- A comment actually posted to the VCS: the violation it reports and
whether it went out inline (`true`) or as a general comment (`false`). -/
structure PostedComment where
  violation : GuidelineViolation
  inline : Bool
deriving Repr, DecidableEq

/-- `FeedbackPublisher.post_feedback`: walks the violations in order,
skipping any with confidence `"low"` or `"medium"`; for the rest it posts an
inline comment, falling back to a general comment on `LineNotInDiffError`
and swallowing `VCSCommentError`.  The VCS client's behaviour is abstracted
as `outcome`.  Returns the posted count together with the comments posted. -/
def post_feedback (outcome : GuidelineViolation → PostOutcome) :
    List GuidelineViolation → Nat × List PostedComment
  | [] => (0, [])
  | v :: rest =>
    if v.confidence = "low" ∨ v.confidence = "medium" then
      post_feedback outcome rest
    else
      let r := post_feedback outcome rest
      match outcome v with
      | .ok => (r.1 + 1, ⟨v, true⟩ :: r.2)
      | .lineNotInDiff true => (r.1 + 1, ⟨v, false⟩ :: r.2)
      | .lineNotInDiff false => r
      | .vcsError => r

/-! ## Guidelines parser and manager

The modules `codeyak/core/guidelines/parser.py` (class `GuidelinesParser`)
and `codeyak/core/guidelines/manager.py` (class `GuidelinesManager`) are not
present in the source tree; only their tests
(`tests/guidelines/test_parser.py`, `tests/guidelines/test_manager.py`), the
exception hierarchy and the model classes remain.  The definitions below are
therefore modelled from the specification (§4.2–§4.4, §8, §9).  YAML text
handling is below this abstraction: a file system is an association list
from paths to already-parsed documents, a document being its optional
`includes` and `guidelines` keys. -/

/-- One raw entry of a document's `guidelines` list: the required string
fields `label` and `description`. -/
structure GuidelineEntry where
  label : String
  description : String
deriving Repr, DecidableEq

/-- A parsed YAML guideline document: optional `includes` (list of reference
strings) and optional `guidelines` (list of entries). -/
structure YamlDoc where
  includes : Option (List String)
  guidelines : Option (List GuidelineEntry)
deriving Repr, DecidableEq

/-- A file system: paths mapped to parsed YAML documents. -/
abbrev FS := List (String × YamlDoc)

/-- The guidelines-load error family (§7, §9): one structured constructor per
failure kind relevant to the modelled subsystem.  `duplicateLabel`,
`circularInclude`, `builtinNotFound`, `unsupportedInclude` and `duplicateId`
correspond to the homonymous failure kinds; `labelFormatError` and
`invalidGuideline` are the per-item validation failures (carrying the 0-based
item index); `noGuidelines` is the empty-document/structural failure. -/
inductive LoadError where
  | fileNotFound (path : String)
  | noGuidelines (path : String)
  | labelFormatError (path : String) (index : Nat) (label : String)
  | duplicateLabel (path : String) (label : String)
  | invalidGuideline (path : String) (index : Nat)
  | unsupportedInclude (ref : String)
  | builtinNotFound (ref : String)
  | circularInclude (path : String)
  | duplicateId (id : String) (docName : String)
deriving Repr, DecidableEq

/-- Directory holding the built-in bundles shipped with the package. -/
def builtinDir : String := ".builtin"

/-- String prefix test (`str.startswith`), on the character lists. -/
def pyStartsWith (s pre : String) : Bool := pre.data.isPrefixOf s.data

/-- String suffix test (`str.endswith`), on the character lists. -/
def pyEndsWith (s suf : String) : Bool := suf.data.reverse.isPrefixOf s.data.reverse

/-- Drop the last `n` characters of a string. -/
def pyDropRight (s : String) (n : Nat) : String :=
  String.mk (s.data.take (s.data.length - n))

/-- Drop the first `n` characters of a string. -/
def pyDrop (s : String) (n : Nat) : String := String.mk (s.data.drop n)

/-- Drop a trailing `.yaml` / `.yml` extension if present. -/
def stripYamlExt (n : String) : String :=
  if pyEndsWith n ".yaml" then pyDropRight n 5
  else if pyEndsWith n ".yml" then pyDropRight n 4
  else n

/-- The final component of a path (`Path.name`): the characters after the
last `'/'` (the whole path when it has none). -/
def fileName (path : String) : String :=
  String.mk ((path.data.reverse.takeWhile (fun c => c ≠ '/')).reverse)

/-- The base filename without extension (`Path.stem`), the id prefix. -/
def fileStem (path : String) : String := stripYamlExt (fileName path)

/-- Modelled from the spec: the parser's label validation (§4.2 step 3) —
lowercase alphanumeric with internal hyphens only, failing on a leading or
trailing hyphen. -/
def labelFormatOk (lab : String) : Bool :=
  !lab.data.isEmpty && lab.data.all idCharOk &&
  !(pyStartsWith lab "-") && !(pyEndsWith lab "-")

/-- Look a path up in the modelled file system (first match). -/
def lookupDoc : FS → String → Option YamlDoc
  | [], _ => none
  | (p, d) :: rest, path => if p = path then some d else lookupDoc rest path

/-- Modelled from the spec: the Include Resolver (§4.3) together with the
parser's include-reference validation (§4.2 step 4, absent
`GuidelinesParser._resolve_builtin_include`): only `builtin:<name>`
references (extension optional) are supported; the resolver returns the
built-in bundle `<name>.yaml`, trying `.yml` as a fallback, and fails with a
built-in-not-found error when neither exists. -/
def resolveBuiltinInclude (fs : FS) (ref : String) : Except LoadError String :=
  if pyStartsWith ref "builtin:" then
    let stem := stripYamlExt (pyDrop ref 8)
    let p1 := builtinDir ++ "/" ++ stem ++ ".yaml"
    let p2 := builtinDir ++ "/" ++ stem ++ ".yml"
    if (lookupDoc fs p1).isSome then .ok p1
    else if (lookupDoc fs p2).isSome then .ok p2
    else .error (.builtinNotFound ref)
  else .error (.unsupportedInclude ref)

/-- Modelled from the spec: the per-item label validation and duplicate-label
detection of `GuidelinesParser` (§4.2 step 3).  Labels are validated and
checked against the labels already seen in this document; duplicate-label
detection depends only on labels, never on description content (§8:
"Duplicate labels within one document always fail, regardless of description
content"). -/
def checkLabels (path : String) : Nat → List String → List GuidelineEntry →
    Except LoadError Unit
  | _, _, [] => .ok ()
  | i, seen, e :: rest =>
    if !labelFormatOk e.label then .error (.labelFormatError path i e.label)
    else if e.label ∈ seen then .error (.duplicateLabel path e.label)
    else checkLabels path (i + 1) (e.label :: seen) rest

/-- Modelled from the spec: `Guideline` construction for each entry, with the
id assembled as `<document-stem>/<label>` (§4.2 step 3); a pydantic
validation failure is reported with the item's 0-based index. -/
def buildGuidelines (path stem : String) : Nat → List GuidelineEntry →
    Except LoadError (List Guideline)
  | _, [] => .ok []
  | i, e :: rest =>
    match mkGuideline (stem ++ "/" ++ e.label) e.description with
    | none => .error (.invalidGuideline path i)
    | some g =>
      match buildGuidelines path stem (i + 1) rest with
      | .ok gs => .ok (g :: gs)
      | .error err => .error err

/-- Modelled from the spec: processing of one document's local `guidelines`
list (§4.2 step 3): label validation and duplicate-label detection, then
`Guideline` construction. -/
def parseLocals (path : String) (entries : List GuidelineEntry) :
    Except LoadError (List Guideline) :=
  match checkLabels path 0 [] entries with
  | .error e => .error e
  | .ok _ => buildGuidelines path (fileStem path) 0 entries

/-- Modelled from the spec: `GuidelinesParser.parse_file` on a document
reached via an include (`allow_includes=False`, §4.2): the visited set
(`processed_files`) is checked on entry and extended with this document; the
document's own `includes` are ignored (one level of nesting only); its local
guidelines are returned. -/
def parseIncludedFile (fs : FS) (path : String) (processed : List String) :
    Except LoadError (List Guideline × List String) :=
  if path ∈ processed then .error (.circularInclude path)
  else
    match lookupDoc fs path with
    | none => .error (.fileNotFound path)
    | some doc =>
      if (doc.guidelines.getD []).isEmpty && (doc.includes.getD []).isEmpty then
        .error (.noGuidelines path)
      else
        match parseLocals path (doc.guidelines.getD []) with
        | .error e => .error e
        | .ok gs => .ok (gs, path :: processed)

/-- Modelled from the spec: resolution and parsing of a document's `includes`
list in declaration order (§4.2 step 4): each reference is resolved, checked
against the visited set (circular-include error naming the offending
resolved path), and parsed with includes disabled; the visited set threads
through (§9 describes the source's visited set as one mutable collection).
Returns the per-include guideline lists keyed by resolved path. -/
def processIncludes (fs : FS) : List String → List String →
    Except LoadError (List (String × List Guideline) × List String)
  | [], processed => .ok ([], processed)
  | ref :: rest, processed =>
    match resolveBuiltinInclude fs ref with
    | .error e => .error e
    | .ok ipath =>
      if ipath ∈ processed then .error (.circularInclude ipath)
      else
        match parseIncludedFile fs ipath processed with
        | .error e => .error e
        | .ok (gs, processed') =>
          match processIncludes fs rest processed' with
          | .error e => .error e
          | .ok (more, processedF) => .ok ((ipath, gs) :: more, processedF)

/-- Modelled from the spec: `GuidelinesParser.parse_file` on a top-level
document (`allow_includes=True`, §4.2): visited-set check, structural check
(at least one of `guidelines` / `includes` with content), local-guideline
processing, then include processing.  Returns the local guidelines, the
per-include guideline lists, and the extended visited set (un-flattened, as
the manager consumes them). -/
def parseTopLevel (fs : FS) (path : String) (processed : List String) :
    Except LoadError (List Guideline × List (String × List Guideline) × List String) :=
  if path ∈ processed then .error (.circularInclude path)
  else
    match lookupDoc fs path with
    | none => .error (.fileNotFound path)
    | some doc =>
      if (doc.guidelines.getD []).isEmpty && (doc.includes.getD []).isEmpty then
        .error (.noGuidelines path)
      else
        match parseLocals path (doc.guidelines.getD []) with
        | .error e => .error e
        | .ok locals =>
          match processIncludes fs (doc.includes.getD []) (path :: processed) with
          | .error e => .error e
          | .ok (incSets, processed') => .ok (locals, incSets, processed')

/-- `GuidelinesManager._check_duplicate_ids` (present in the source at
`code_reviewer/core/guidelines/manager.py`): walk the guidelines, failing
with a duplicate-id error naming the id and the current document's display
name the moment an id is already in the seen set, otherwise adding it.
Returns the extended seen set. -/
def checkDuplicateIds : List Guideline → List String → String →
    Except LoadError (List String)
  | [], seen, _ => .ok seen
  | g :: rest, seen, docName =>
    if g.id ∈ seen then .error (.duplicateId g.id docName)
    else checkDuplicateIds rest (g.id :: seen) docName

/-- Accumulator threaded through the manager's fold over documents: the named
sets produced so far, the global seen-id set, and the visited set shared with
the parser. -/
structure LoadState where
  sets : List (String × List Guideline)
  seenIds : List String
  processed : List String
deriving Repr, DecidableEq

/-- Materialize one named set: global duplicate-id check, then append. -/
def addSet (name : String) (gs : List Guideline) (st : LoadState) :
    Except LoadError LoadState :=
  match checkDuplicateIds gs st.seenIds name with
  | .error e => .error e
  | .ok seen' => .ok ⟨st.sets ++ [(name, gs)], seen', st.processed⟩

/-- Display name of an include-derived set:
`project/<filename>→<include-target-filename>`. -/
def includeSetName (file ipath : String) : String :=
  "project/" ++ fileName file ++ "→" ++ fileName ipath

/-- Modelled from the spec: materialization of the per-include sets of one
document (§4.4): each include target that itself contributes guidelines
becomes a separate named set (an include contributing none is elided, per
§4.4 and the §9 note assuming elision). -/
def addIncludeSets (file : String) : List (String × List Guideline) →
    LoadState → Except LoadError LoadState
  | [], st => .ok st
  | (ipath, gs) :: rest, st =>
    if gs.isEmpty then addIncludeSets file rest st
    else
      match addSet (includeSetName file ipath) gs st with
      | .error e => .error e
      | .ok st' => addIncludeSets file rest st'

/-- Modelled from the spec: the manager's handling of one project document
(§4.4): parse it, materialize one set per contributing include, then — only
if the document defines local guidelines — the set
`project/<filename>` holding just those. -/
def loadFile (fs : FS) (file : String) (st : LoadState) :
    Except LoadError LoadState :=
  match parseTopLevel fs file st.processed with
  | .error e => .error e
  | .ok (locals, incSets, processed') =>
    match addIncludeSets file incSets ⟨st.sets, st.seenIds, processed'⟩ with
    | .error e => .error e
    | .ok st2 =>
      if locals.isEmpty then .ok st2
      else addSet ("project/" ++ fileName file) locals st2

/-- Modelled from the spec: the manager's fold over the (sorted) candidate
documents, threading the accumulator (§4.4, §9). -/
def loadFiles (fs : FS) : List String → LoadState → Except LoadError LoadState
  | [], st => .ok st
  | f :: rest, st =>
    match loadFile fs f st with
    | .error e => .error e
    | .ok st' => loadFiles fs rest st'

/-- Modelled from the spec: `GuidelinesManager._load_project_guidelines`
(§4.4): assemble the named-set collection for a list of project documents,
starting from an empty accumulator. -/
def loadProjectGuidelines (fs : FS) (files : List String) :
    Except LoadError (List (String × List Guideline)) :=
  match loadFiles fs files ⟨[], [], []⟩ with
  | .error e => .error e
  | .ok st => .ok st.sets

/-- All guideline ids across a named-set collection, in production order. -/
def allSetIds (sets : List (String × List Guideline)) : List String :=
  ((sets.map Prod.snd).flatten).map Guideline.id

/-- Invariant of the manager's fold: the global seen-id set holds exactly
the ids of the sets produced so far (most recent first) and is duplicate
free. -/
def ManagerInv (st : LoadState) : Prop :=
  st.seenIds = (allSetIds st.sets).reverse ∧ st.seenIds.Nodup

/-! ### Concrete scenario file systems (from the repository's tests) -/

/-- Description text of the built-in security guideline used in scenarios. -/
def securityDescription : String :=
  "Avoid building SQL queries via string concatenation."

/-- Scenario (test `test_duplicate_label_in_parent_and_included_file`): a
project file `security.yaml` includes `builtin:security` and locally
declares the same label, so `security/sql-injection` is produced twice. -/
def fsParentIncludeClash : FS :=
  [(".builtin/security.yaml", ⟨none, some [⟨"sql-injection", securityDescription⟩]⟩),
   ("security.yaml", ⟨some ["builtin:security"],
     some [⟨"sql-injection", "Custom SQL injection rule that conflicts."⟩]⟩)]

/-- Scenario (tests `test_duplicate_across_multiple_files_with_same_include`,
`test_duplicate_detection_comprehensive`): two sibling project files both
include `builtin:security`. -/
def fsSharedInclude : FS :=
  [(".builtin/security.yaml", ⟨none, some [⟨"sql-injection", securityDescription⟩]⟩),
   ("file1.yaml", ⟨some ["builtin:security"], none⟩),
   ("file2.yaml", ⟨some ["builtin:security"], none⟩)]

/-- Scenario (spec §8 end-to-end example, test
`test_load_guideline_sets_vcs_with_includes`): `custom.yaml` includes
`builtin:security` and declares one local guideline `custom-rule`. -/
def fsCustomSecurity : FS :=
  [(".builtin/security.yaml", ⟨none, some [⟨"sql-injection", securityDescription⟩]⟩),
   ("custom.yaml", ⟨some ["builtin:security"],
     some [⟨"custom-rule", "Custom project rule for testing."⟩]⟩)]

/-- Scenario: `custom.yaml` declares one include whose bundle contributes no
guidelines of its own (the included document only declares further includes,
which are ignored at include depth 1). -/
def fsEmptyInclude : FS :=
  [(".builtin/security.yaml", ⟨none, some [⟨"sql-injection", securityDescription⟩]⟩),
   (".builtin/empty.yaml", ⟨some ["builtin:security"], none⟩),
   ("custom.yaml", ⟨some ["builtin:empty"],
     some [⟨"custom-rule", "Custom project rule for testing."⟩]⟩)]

/-- Scenario (test `test_self_include_detected`): a built-in document that
includes itself through its own `builtin:` name. -/
def fsSelfInclude : FS :=
  [(".builtin/selftest.yaml", ⟨some ["builtin:selftest"],
     some [⟨"test-rule", "Test rule for circular include detection."⟩]⟩)]

/-- Scenario (test `test_duplicate_labels_in_same_file`): one document with
two entries sharing a label (the second one's description not even valid). -/
def fsDupLabels : FS :=
  [("dup.yaml", ⟨none,
     some [⟨"same-label", "First occurrence description."⟩, ⟨"same-label", "x"⟩]⟩)]

/-! ## Helper lemmas -/

lemma findSlashSplit_eq_some {l a b : List Char} :
    findSlashSplit l = some (a, b) → l = a ++ '/' :: b ∧ '/' ∉ a := by
  induction l generalizing a b with
  | nil => intro h; simp [findSlashSplit] at h
  | cons c cs ih =>
    intro h
    by_cases hc : c = '/'
    · simp [findSlashSplit, hc] at h
      obtain ⟨ha, hb⟩ := h
      subst ha; subst hb
      simp [hc]
    · simp [findSlashSplit, hc] at h
      rcases hsplit : findSlashSplit cs with _ | ⟨a', b'⟩
      · rw [hsplit] at h; simp at h
      · rw [hsplit] at h
        simp at h
        obtain ⟨ha, hb⟩ := h
        obtain ⟨hcs, hna⟩ := ih hsplit
        subst ha; subst hb
        simp [hcs, hc]
        exact ⟨fun hce => hc hce.symm, hna⟩

lemma findSlashSplit_of_split {a b : List Char} (hna : '/' ∉ a) :
    findSlashSplit (a ++ '/' :: b) = some (a, b) := by
  induction a with
  | nil => simp [findSlashSplit]
  | cons c cs ih =>
    simp at hna
    push_neg at hna
    obtain ⟨hc, hcs⟩ := hna
    simp [findSlashSplit, Ne.symm hc, ih hcs]

lemma idCharOk_slash_false : idCharOk '/' = false := by decide

/-- The single-line pattern evaluator agrees with the specification-side
decomposition of the id format. -/
lemma matchOneLine_iff (l : List Char) :
    matchOneLine l = true ↔ SpecIdFormatL l := by
  constructor
  · intro h
    unfold matchOneLine at h
    rcases hsplit : findSlashSplit l with _ | ⟨a, b⟩
    · rw [hsplit] at h; simp at h
    · rw [hsplit] at h
      simp only [Bool.and_eq_true] at h
      obtain ⟨ha, hb⟩ := h
      obtain ⟨hdec, _⟩ := findSlashSplit_eq_some hsplit
      refine ⟨a, b, hdec, ?_, ?_, ?_, ?_⟩
      · intro hnil; rw [hnil] at ha; simp [idSeg] at ha
      · intro hnil; rw [hnil] at hb; simp [idSeg] at hb
      · intro c hc
        unfold idSeg at ha
        simp only [Bool.and_eq_true, List.all_eq_true] at ha
        exact ha.2 c hc
      · intro c hc
        unfold idSeg at hb
        simp only [Bool.and_eq_true, List.all_eq_true] at hb
        exact hb.2 c hc
  · rintro ⟨a, b, hdec, hna, hnb, hac, hbc⟩
    have hslash : '/' ∉ a := by
      intro hmem
      have := hac '/' hmem
      simp [idCharOk_slash_false] at this
    unfold matchOneLine
    rw [hdec, findSlashSplit_of_split hslash]
    unfold idSeg
    simp only [Bool.and_eq_true, List.all_eq_true]
    refine ⟨⟨?_, fun c hc => hac c hc⟩, ⟨?_, fun c hc => hbc c hc⟩⟩
    · simp [List.isEmpty_iff, hna]
    · simp [List.isEmpty_iff, hnb]

/-- The `re.match` evaluator agrees with the specification-side reading of
what Python's anchored pattern accepts (the decomposition, with one
trailing newline tolerated by `$`). -/
lemma matchesIdFormat_iff (s : String) :
    matchesIdFormat s = true ↔ PySpecIdFormat s := by
  unfold matchesIdFormat PySpecIdFormat
  constructor
  · intro h
    rcases Bool.or_eq_true_iff.mp h with h | h
    · exact Or.inl ((matchOneLine_iff _).mp h)
    · by_cases hlast : s.data.getLast? = some '\n'
      · rw [if_pos hlast] at h
        refine Or.inr ⟨s.data.dropLast, ?_, (matchOneLine_iff _).mp h⟩
        have hne : s.data ≠ [] := by
          intro hnil
          rw [hnil] at hlast
          simp at hlast
        have hsplit := List.dropLast_append_getLast hne
        rw [List.getLast?_eq_getLast s.data hne] at hlast
        simp only [Option.some.injEq] at hlast
        rw [hlast] at hsplit
        exact hsplit.symm
      · rw [if_neg hlast] at h
        simp at h
  · intro h
    rcases h with h | ⟨l, hdec, hfmt⟩
    · exact Bool.or_eq_true_iff.mpr (Or.inl ((matchOneLine_iff _).mpr h))
    · refine Bool.or_eq_true_iff.mpr (Or.inr ?_)
      rw [hdec]
      rw [if_pos (by simp), List.dropLast_concat]
      exact (matchOneLine_iff _).mpr hfmt

lemma createFileGroupsAux_flatten (ds : List FileDiff) :
    ∀ batch chars gid,
      ((createFileGroupsAux ds batch chars gid).map FileGroup.files).flatten
        = batch ++ ds := by
  induction ds with
  | nil =>
    intro batch chars gid
    by_cases hb : batch.isEmpty
    · simp [createFileGroupsAux, hb, List.isEmpty_iff.mp hb]
    · simp [createFileGroupsAux, hb]
  | cons d rest ih =>
    intro batch chars gid
    unfold createFileGroupsAux
    cases hcond : (!batch.isEmpty && decide (chars + diffSize d > MAX_CHARS_PER_GROUP)) with
    | true =>
      rw [if_pos hcond]
      simp only [List.map_cons, List.flatten_cons, ih]
      simp
    | false =>
      rw [if_neg (by simp [hcond])]
      rw [ih]
      simp

lemma createFileGroupsAux_ids (ds : List FileDiff) :
    ∀ batch chars gid,
      (createFileGroupsAux ds batch chars gid).map FileGroup.group_id
        = List.range' gid (createFileGroupsAux ds batch chars gid).length := by
  induction ds with
  | nil =>
    intro batch chars gid
    by_cases hb : batch.isEmpty
    · simp [createFileGroupsAux, hb]
    · simp [createFileGroupsAux, hb, List.range']
  | cons d rest ih =>
    intro batch chars gid
    unfold createFileGroupsAux
    cases hcond : (!batch.isEmpty && decide (chars + diffSize d > MAX_CHARS_PER_GROUP)) with
    | true =>
      rw [if_pos hcond]
      simp only [List.map_cons, List.length_cons, ih]
      simp [List.range'_succ]
    | false =>
      rw [if_neg (by simp [hcond])]
      exact ih _ _ _

lemma createFileGroupsAux_groups (ds : List FileDiff) :
    ∀ batch chars gid, BatchInv batch chars →
      ∀ g ∈ createFileGroupsAux ds batch chars gid,
        ((∀ f ∈ g.files, diffSize f ≤ MAX_CHARS_PER_GROUP) →
          sumSizes g.files ≤ MAX_CHARS_PER_GROUP) ∧
        (∀ f ∈ g.files, MAX_CHARS_PER_GROUP < diffSize f → g.files = [f]) := by
  induction ds with
  | nil =>
    intro batch chars gid hinv g hg
    by_cases hb : batch.isEmpty
    · simp [createFileGroupsAux, hb] at hg
    · simp [createFileGroupsAux, hb] at hg
      subst hg
      obtain ⟨hchars, hbound, halone⟩ := hinv
      exact ⟨fun h => hchars ▸ hbound h, halone⟩
  | cons d rest ih =>
    intro batch chars gid hinv g hg
    obtain ⟨hchars, hbound, halone⟩ := hinv
    unfold createFileGroupsAux at hg
    cases hcond : (!batch.isEmpty && decide (chars + diffSize d > MAX_CHARS_PER_GROUP)) with
    | true =>
      rw [if_pos hcond] at hg
      rcases List.mem_cons.mp hg with hg | hg
      · subst hg
        refine ⟨fun h => ?_, halone⟩
        rw [← hchars]
        exact hbound h
      · refine ih [d] (diffSize d) (gid + 1) ?_ g hg
        refine ⟨by simp [sumSizes], ?_, ?_⟩
        · intro h
          exact h d (by simp)
        · intro f hf _
          simp at hf
          simp [hf]
    | false =>
      rw [if_neg (by simp [hcond])] at hg
      have hcases : batch = [] ∨ chars + diffSize d ≤ MAX_CHARS_PER_GROUP := by
        rcases Bool.and_eq_false_iff.mp hcond with h | h
        · left
          have hbt : batch.isEmpty = true := by
            cases hbi : batch.isEmpty
            · rw [hbi] at h; simp at h
            · rfl
          exact List.isEmpty_iff.mp hbt
        · right
          have := of_decide_eq_false h
          omega
      refine ih (batch ++ [d]) (chars + diffSize d) gid ?_ g hg
      rcases hcases with hbe | hle'
      · -- batch was empty: new batch is [d]
        subst hbe
        have hc0 : chars = 0 := by simpa [sumSizes] using hchars
        refine ⟨by simp [sumSizes, hc0], ?_, ?_⟩
        · intro h
          have := h d (by simp)
          omega
        · intro f hf _
          simp at hf
          simp [hf]
      · -- no overflow: chars + n ≤ budget
        refine ⟨by simp [sumSizes, hchars, sumSizes], ?_, ?_⟩
        · intro _; exact hle'
        · intro f hf hbig
          exfalso
          have hfs : diffSize f ≤ chars + diffSize d := by
            simp only [List.mem_append, List.mem_singleton] at hf
            rcases hf with hf | hf
            · have hmem : diffSize f ∈ batch.map diffSize :=
                List.mem_map_of_mem diffSize hf
              have : diffSize f ≤ sumSizes batch :=
                List.single_le_sum (fun x _ => Nat.zero_le x) _ hmem
              omega
            · subst hf; omega
          omega

lemma overlaps_eq_amendedDuplicate (c : MRComment) (v : GuidelineViolation) :
    overlaps_with_violation c v = amendedDuplicate c v := by
  unfold overlaps_with_violation amendedDuplicate
  rcases c with ⟨fp?, ln?, gid?, inl⟩
  rcases fp? with _ | fp <;> rcases ln? with _ | ln <;> simp
  rcases gid? with _ | g
  · by_cases hfp0 : fp = "" <;> by_cases hfpv : fp = v.file_path <;>
      simp [hfp0, hfpv]
  · by_cases hfp0 : fp = "" <;> by_cases hfpv : fp = v.file_path <;>
      by_cases hg0 : g = "" <;> by_cases hgv : g = v.guideline_id <;>
      simp [hfp0, hfpv, hg0, hgv]

/-! ## Claim theorems: grouping, guideline model, filter, feedback -/

/-- C4: `create_file_groups` on any ordered list of `FileDiff`s and the
42,000-character budget: the groups' concatenated files, in order, equal the
input (no file dropped, duplicated or split); a group all of whose files are
individually within the budget has total size at most the budget; a
`FileDiff` whose own size exceeds the budget is alone in its group; group
ids are sequential starting at 1. -/
theorem claim_C4_grouping (diffs : List FileDiff) :
    (((create_file_groups diffs).map FileGroup.files).flatten = diffs) ∧
    (∀ g ∈ create_file_groups diffs,
      (∀ f ∈ g.files, diffSize f ≤ MAX_CHARS_PER_GROUP) →
        sumSizes g.files ≤ MAX_CHARS_PER_GROUP) ∧
    (∀ g ∈ create_file_groups diffs,
      ∀ f ∈ g.files, MAX_CHARS_PER_GROUP < diffSize f → g.files = [f]) ∧
    ((create_file_groups diffs).map FileGroup.group_id
      = List.range' 1 (create_file_groups diffs).length) := by
  have hinv : BatchInv [] 0 := by
    refine ⟨by simp [sumSizes], fun _ => by simp, fun f hf => by simp at hf⟩
  refine ⟨by simpa using createFileGroupsAux_flatten diffs [] 0 1, ?_, ?_,
    createFileGroupsAux_ids diffs [] 0 1⟩
  · intro g hg h
    exact (createFileGroupsAux_groups diffs [] 0 1 hinv g hg).1 h
  · intro g hg f hf hbig
    exact (createFileGroupsAux_groups diffs [] 0 1 hinv g hg).2 f hf hbig

/-- Witness for C4 at a concrete input: two small diffs form one group whose
total size obeys the budget and which carries id 1. -/
theorem claim_C4_grouping_witness :
    (⟨[⟨"a.py", "xx"⟩, ⟨"b.py", "yy"⟩], 1, approxTokens 12⟩ : FileGroup)
        ∈ create_file_groups [⟨"a.py", "xx"⟩, ⟨"b.py", "yy"⟩] ∧
    sumSizes (FileGroup.files ⟨[⟨"a.py", "xx"⟩, ⟨"b.py", "yy"⟩], 1, approxTokens 12⟩)
        ≤ MAX_CHARS_PER_GROUP := by
  refine ⟨by decide, ?_⟩
  exact (claim_C4_grouping [⟨"a.py", "xx"⟩, ⟨"b.py", "yy"⟩]).2.1
    ⟨[⟨"a.py", "xx"⟩, ⟨"b.py", "yy"⟩], 1, approxTokens 12⟩ (by decide) (by decide)

/-- C6 counterexample: the claim says construction fails whenever the id
does not match `^[a-z0-9-]+/[a-z0-9-]+$`, but the validator applies the
pattern through Python's `re.match`, whose `$` also matches just before a
single trailing newline: the id `foo/bar\n` admits no `prefix/label`
decomposition of the whole string, yet the `Guideline` constructs. -/
theorem claim_C6_counterexample :
    ¬ SpecIdFormatL (String.data "foo/bar\n") ∧
    mkGuideline "foo/bar\n" "A sufficiently long description."
      = some ⟨"foo/bar\n", "A sufficiently long description."⟩ := by
  constructor
  · intro h
    have hml := (matchOneLine_iff _).mpr h
    exact absurd hml (by decide)
  · rfl

/-- C6 amended: constructing a `Guideline` fails exactly when the id is not
accepted by `re.match(r'^[a-z0-9-]+/[a-z0-9-]+$', ...)` — that is, neither
the id nor the id minus one trailing newline decomposes as `prefix/label`
over `[a-z0-9-]` (`PySpecIdFormat`) — or the description is under 10
characters after `str.strip()` trimming (an empty description trims to
length 0); on success the stored description is the trimmed input (and the
id is stored as given). -/
theorem claim_C6_guideline_validation (id desc : String) :
    (mkGuideline id desc = none ↔
      ¬ PySpecIdFormat id ∨ (pyStrip desc).length < 10) ∧
    (∀ g, mkGuideline id desc = some g →
      g.id = id ∧ g.description = pyStrip desc) := by
  unfold mkGuideline
  cases hm : matchesIdFormat id with
  | false =>
    have hspec : ¬ PySpecIdFormat id := fun h => by
      rw [(matchesIdFormat_iff id).mpr h] at hm
      exact absurd hm (by simp)
    simp [hm, hspec]
  | true =>
    have hspec : PySpecIdFormat id := (matchesIdFormat_iff id).mp hm
    by_cases hlen : (pyStrip desc).length < 10
    · simp [hm, hlen, hspec]
    · simp only [hm, Bool.not_true, Bool.false_eq_true, if_false, hlen, if_neg hlen]
      constructor
      · simp [hspec, hlen]
      · intro g hg
        simp only [Option.some.injEq] at hg
        rw [← hg]
        exact ⟨rfl, rfl⟩

/-- Witness for C6 at concrete inputs: a well-formed id with a padded
description constructs and stores the trimmed description, and the
trailing-newline id constructs too; both derived by applying the validation
characterization. -/
theorem claim_C6_guideline_validation_witness :
    (Guideline.id ⟨"security/sql-injection", "Use parameterized queries."⟩
        = "security/sql-injection" ∧
     Guideline.description ⟨"security/sql-injection", "Use parameterized queries."⟩
        = pyStrip "  Use parameterized queries.  ") ∧
    (Guideline.id ⟨"foo/bar\n", "A sufficiently long description."⟩
        = "foo/bar\n" ∧
     Guideline.description ⟨"foo/bar\n", "A sufficiently long description."⟩
        = pyStrip "A sufficiently long description.") :=
  ⟨(claim_C6_guideline_validation "security/sql-injection"
      "  Use parameterized queries.  ").2
      ⟨"security/sql-injection", "Use parameterized queries."⟩ (by decide),
   (claim_C6_guideline_validation "foo/bar\n"
      "A sufficiently long description.").2
      ⟨"foo/bar\n", "A sufficiently long description."⟩ (by decide)⟩

/-- C7 counterexample: the claim says constructing a `Guideline` whose id
segment starts or ends with a hyphen fails, but the validator's regex
`^[a-z0-9-]+/[a-z0-9-]+$` accepts hyphens in any position: both `-foo/bar`
and `foo/bar-` construct successfully (with a valid description). -/
theorem claim_C7_counterexample :
    mkGuideline "-foo/bar" "A sufficiently long description."
      = some ⟨"-foo/bar", "A sufficiently long description."⟩ ∧
    mkGuideline "foo/bar-" "A sufficiently long description."
      = some ⟨"foo/bar-", "A sufficiently long description."⟩ := ⟨rfl, rfl⟩

/-- C7 amended: for every id `prefix/label` whose segments are nonempty and
drawn from `[a-z0-9-]` — including segments starting or ending with a
hyphen — construction of the `Guideline` value object succeeds whenever the
description is valid: the model's validators place no constraint on hyphen
position. -/
theorem claim_C7_hyphen_segments (a b : List Char) (desc : String)
    (ha : a ≠ []) (hb : b ≠ []) (hac : ∀ c ∈ a, idCharOk c = true)
    (hbc : ∀ c ∈ b, idCharOk c = true) (hdesc : 10 ≤ (pyStrip desc).length) :
    mkGuideline (String.mk (a ++ '/' :: b)) desc
      = some ⟨String.mk (a ++ '/' :: b), pyStrip desc⟩ := by
  have hm : matchesIdFormat (String.mk (a ++ '/' :: b)) = true :=
    (matchesIdFormat_iff _).mpr (Or.inl ⟨a, b, rfl, ha, hb, hac, hbc⟩)
  unfold mkGuideline
  rw [hm]
  simp [Nat.not_lt.mpr hdesc]

/-- Witness for C7's amended theorem at a concrete input: the id `-foo/bar`
with a leading hyphen constructs. -/
theorem claim_C7_hyphen_segments_witness :
    mkGuideline (String.mk (['-', 'f', 'o', 'o'] ++ '/' :: ['b', 'a', 'r']))
        "A sufficiently long description."
      = some ⟨String.mk (['-', 'f', 'o', 'o'] ++ '/' :: ['b', 'a', 'r']),
          pyStrip "A sufficiently long description."⟩ :=
  claim_C7_hyphen_segments ['-', 'f', 'o', 'o'] ['b', 'a', 'r']
    "A sufficiently long description." (by decide) (by decide) (by decide)
    (by decide) (by decide)

/-- C5 counterexample: the claim requires the matching comment to be inline,
but `overlaps_with_violation` never consults `is_inline`: a non-inline
comment carrying position data filters out the violation even though no
comment satisfies the claim's condition. -/
theorem claim_C5_counterexample :
    filter_existing_violations [⟨"a.py", 10, "x/y", "reason", "high"⟩]
        [⟨some "a.py", some 10, some "x/y", false⟩] = ([], 1) ∧
    claimC5Duplicate ⟨"a.py", 10, "x/y", "reason", "high"⟩
        [⟨some "a.py", some 10, some "x/y", false⟩] = false := ⟨rfl, rfl⟩

/-- C5 amended: the filter classifies a violation as a duplicate exactly
when some existing comment has a non-empty recorded file path equal to the
violation's, a recorded line number within 10 of the violation's, and a
parsed rule id that — when present and non-empty — equals the violation's
(the `is_inline` flag is not consulted); filtering returns the
non-duplicates as a new list, in order, together with the original count
(the inputs, being values, are unchanged).  A comment at line 12 makes a
same-file same-rule violation at line 10 a duplicate; at distance 11 it
does not. -/
theorem claim_C5_duplicate_filter (violations : List GuidelineViolation)
    (comments : List MRComment) :
    (filter_existing_violations violations comments
      = (violations.filter
          (fun v => !(comments.any (fun c => amendedDuplicate c v))),
         violations.length)) ∧
    amendedDuplicate ⟨some "a.py", some 12, some "x/y", true⟩
        ⟨"a.py", 10, "x/y", "r", "high"⟩ = true ∧
    amendedDuplicate ⟨some "a.py", some 21, some "x/y", true⟩
        ⟨"a.py", 10, "x/y", "r", "high"⟩ = false := by
  refine ⟨?_, rfl, rfl⟩
  unfold filter_existing_violations
  have hfun : ∀ v : GuidelineViolation,
      (fun c => overlaps_with_violation c v) = fun c => amendedDuplicate c v :=
    fun v => funext fun c => overlaps_eq_amendedDuplicate c v
  congr 1
  apply List.filter_congr
  intro v _
  rw [hfun v]

/-- C9: `post_feedback` skips every violation whose confidence is `"low"` or
`"medium"` — contributing no posted comment and no increment of the posted
count — so its result equals running it on the list with those violations
removed; when every confidence is one of `low`/`medium`/`high`, this is
exactly publication of the `high`-confidence violations only. -/
theorem claim_C9_confidence_filter (outcome : GuidelineViolation → PostOutcome)
    (violations : List GuidelineViolation) :
    (post_feedback outcome violations
      = post_feedback outcome (violations.filter
          (fun v => !(v.confidence == "low" || v.confidence == "medium")))) ∧
    ((∀ v ∈ violations,
        v.confidence = "low" ∨ v.confidence = "medium" ∨ v.confidence = "high") →
      post_feedback outcome violations
        = post_feedback outcome
            (violations.filter (fun v => v.confidence == "high"))) := by
  have h1 : post_feedback outcome violations
      = post_feedback outcome (violations.filter
          (fun v => !(v.confidence == "low" || v.confidence == "medium"))) := by
    induction violations with
    | nil => rfl
    | cons v rest ih =>
      by_cases hv : v.confidence = "low" ∨ v.confidence = "medium"
      · have hfb : (!(v.confidence == "low" || v.confidence == "medium")) = false := by
          rcases hv with hv | hv <;> simp [hv]
        simp only [post_feedback, if_pos hv, List.filter_cons, hfb]
        exact ih
      · have hfb : (!(v.confidence == "low" || v.confidence == "medium")) = true := by
          push_neg at hv
          simp [hv.1, hv.2]
        simp only [post_feedback, if_neg hv, List.filter_cons, hfb, if_pos rfl]
        rw [ih]
  refine ⟨h1, fun hall => ?_⟩
  have hfilters :
      violations.filter (fun v => !(v.confidence == "low" || v.confidence == "medium"))
        = violations.filter (fun v => v.confidence == "high") := by
    apply List.filter_congr
    intro v hv
    rcases hall v hv with h | h | h <;> simp [h]
  rw [h1, hfilters]

/-! ## Helper lemmas: the duplicate-id checker and the manager fold -/

lemma checkDuplicateIds_ok {gs : List Guideline} {seen seen' : List String}
    {name : String} (h : checkDuplicateIds gs seen name = .ok seen') :
    seen' = (gs.map Guideline.id).reverse ++ seen ∧
    (gs.map Guideline.id).Nodup ∧ (∀ g ∈ gs, g.id ∉ seen) := by
  induction gs generalizing seen with
  | nil =>
    simp only [checkDuplicateIds, Except.ok.injEq] at h
    simp [h]
  | cons g rest ih =>
    by_cases hmem : g.id ∈ seen
    · simp [checkDuplicateIds, hmem] at h
    · simp only [checkDuplicateIds, if_neg hmem] at h
      obtain ⟨hs, hnd, hns⟩ := ih h
      refine ⟨by simp [hs], ?_, ?_⟩
      · rw [List.map_cons]
        refine List.nodup_cons.mpr ⟨?_, hnd⟩
        intro hin
        obtain ⟨g', hg', hgid⟩ := List.mem_map.mp hin
        exact hns g' hg' (by simp [hgid])
      · intro g' hg'
        rcases List.mem_cons.mp hg' with hg' | hg'
        · subst hg'; exact hmem
        · intro hc
          exact hns g' hg' (by simp [hc])

lemma checkDuplicateIds_ok_of {gs : List Guideline} {seen : List String}
    {name : String} (hnd : (gs.map Guideline.id).Nodup)
    (hns : ∀ g ∈ gs, g.id ∉ seen) :
    checkDuplicateIds gs seen name = .ok ((gs.map Guideline.id).reverse ++ seen) := by
  induction gs generalizing seen with
  | nil => simp [checkDuplicateIds]
  | cons g rest ih =>
    have hmem : g.id ∉ seen := hns g (by simp)
    have hnd' : g.id ∉ rest.map Guideline.id ∧ (rest.map Guideline.id).Nodup := by
      rw [List.map_cons, List.nodup_cons] at hnd
      exact hnd
    have hns2 : ∀ g' ∈ rest, g'.id ∉ g.id :: seen := by
      intro g' hg' hc
      rcases List.mem_cons.mp hc with hc | hc
      · exact hnd'.1 (hc ▸ List.mem_map_of_mem Guideline.id hg')
      · exact hns g' (by simp [hg']) hc
    simp only [checkDuplicateIds, if_neg hmem]
    rw [ih hnd'.2 hns2]
    simp

lemma checkDuplicateIds_error {gs : List Guideline} {seen : List String}
    {name : String} {e : LoadError}
    (h : checkDuplicateIds gs seen name = .error e) :
    ∃ i, e = .duplicateId i name ∧ i ∈ gs.map Guideline.id := by
  induction gs generalizing seen with
  | nil => simp [checkDuplicateIds] at h
  | cons g rest ih =>
    by_cases hmem : g.id ∈ seen
    · simp only [checkDuplicateIds, if_pos hmem, Except.error.injEq] at h
      exact ⟨g.id, h.symm, by simp⟩
    · simp only [checkDuplicateIds, if_neg hmem] at h
      obtain ⟨i, hi, him⟩ := ih h
      exact ⟨i, hi, by simp [him]⟩

lemma addSet_ok {name : String} {gs : List Guideline} {st st' : LoadState}
    (h : addSet name gs st = .ok st') :
    st'.sets = st.sets ++ [(name, gs)] ∧
    st'.seenIds = (gs.map Guideline.id).reverse ++ st.seenIds ∧
    st'.processed = st.processed ∧
    (gs.map Guideline.id).Nodup ∧ (∀ g ∈ gs, g.id ∉ st.seenIds) := by
  unfold addSet at h
  cases hc : checkDuplicateIds gs st.seenIds name with
  | error e => rw [hc] at h; simp at h
  | ok seen' =>
    rw [hc] at h
    simp only [Except.ok.injEq] at h
    obtain ⟨hs, hnd, hns⟩ := checkDuplicateIds_ok hc
    subst h
    exact ⟨rfl, hs, rfl, hnd, hns⟩

lemma allSetIds_append (s1 s2 : List (String × List Guideline)) :
    allSetIds (s1 ++ s2) = allSetIds s1 ++ allSetIds s2 := by
  simp [allSetIds]

lemma addSet_inv {name : String} {gs : List Guideline} {st st' : LoadState}
    (hinv : ManagerInv st) (h : addSet name gs st = .ok st') :
    ManagerInv st' := by
  obtain ⟨hseen, hnd⟩ := hinv
  obtain ⟨hs, hs2, _, hgnd, hgns⟩ := addSet_ok h
  constructor
  · rw [hs2, hs, hseen, allSetIds_append]
    simp [allSetIds]
  · rw [hs2]
    refine List.Nodup.append (by simpa using hgnd) hnd ?_
    intro i hi hi2
    simp only [List.mem_reverse] at hi
    obtain ⟨g, hg, hgid⟩ := List.mem_map.mp hi
    exact hgns g hg (hgid ▸ hi2)

lemma addIncludeSets_ok {file : String} {incSets : List (String × List Guideline)}
    {st st' : LoadState} (h : addIncludeSets file incSets st = .ok st') :
    st'.sets = st.sets ++ (incSets.filter (fun x => !x.2.isEmpty)).map
        (fun x => (includeSetName file x.1, x.2)) ∧
    st'.processed = st.processed ∧
    (ManagerInv st → ManagerInv st') := by
  induction incSets generalizing st with
  | nil =>
    simp only [addIncludeSets, Except.ok.injEq] at h
    subst h
    simp
  | cons x rest ih =>
    obtain ⟨ipath, gs⟩ := x
    by_cases hemp : gs.isEmpty
    · simp only [addIncludeSets, if_pos hemp] at h
      obtain ⟨h1, h2, h3⟩ := ih h
      refine ⟨?_, h2, h3⟩
      rw [h1]
      simp [List.filter_cons, hemp]
    · simp only [addIncludeSets, if_neg hemp] at h
      cases hadd : addSet (includeSetName file ipath) gs st with
      | error e => rw [hadd] at h; simp at h
      | ok st1 =>
        rw [hadd] at h
        obtain ⟨h1, h2, h3⟩ := ih h
        obtain ⟨ha1, _, ha3, _, _⟩ := addSet_ok hadd
        refine ⟨?_, by rw [h2, ha3], fun hi => h3 (addSet_inv hi hadd)⟩
        rw [h1, ha1]
        simp only [List.filter_cons, hemp]
        simp

/-! ## Helper lemmas: parser inversion and include processing -/

lemma parseTopLevel_ok_inv {fs : FS} {path : String} {processed : List String}
    {locals : List Guideline} {incSets : List (String × List Guideline)}
    {pr' : List String}
    (h : parseTopLevel fs path processed = .ok (locals, incSets, pr')) :
    path ∉ processed ∧
    ∃ doc, lookupDoc fs path = some doc ∧
      parseLocals path (doc.guidelines.getD []) = .ok locals ∧
      processIncludes fs (doc.includes.getD []) (path :: processed)
        = .ok (incSets, pr') := by
  unfold parseTopLevel at h
  by_cases hmem : path ∈ processed
  · rw [if_pos hmem] at h; simp at h
  · rw [if_neg hmem] at h
    cases hdoc : lookupDoc fs path with
    | none => rw [hdoc] at h; simp at h
    | some doc =>
      rw [hdoc] at h
      dsimp only at h
      by_cases hempty :
          ((doc.guidelines.getD []).isEmpty && (doc.includes.getD []).isEmpty) = true
      · rw [if_pos hempty] at h; simp at h
      · rw [if_neg hempty] at h
        cases hloc : parseLocals path (doc.guidelines.getD []) with
        | error e => rw [hloc] at h; simp at h
        | ok l =>
          rw [hloc] at h
          dsimp only at h
          cases hinc : processIncludes fs (doc.includes.getD []) (path :: processed) with
          | error e => rw [hinc] at h; simp at h
          | ok res =>
            obtain ⟨s, pr⟩ := res
            rw [hinc] at h
            dsimp only at h
            simp only [Except.ok.injEq, Prod.mk.injEq] at h
            obtain ⟨hl, hs, hp⟩ := h
            exact ⟨hmem, doc, rfl, hl ▸ hloc, by rw [hinc, hs, hp]⟩

lemma parseIncludedFile_ok_inv {fs : FS} {path : String} {processed : List String}
    {gs : List Guideline} {pr' : List String}
    (h : parseIncludedFile fs path processed = .ok (gs, pr')) :
    pr' = path :: processed ∧ path ∉ processed := by
  unfold parseIncludedFile at h
  by_cases hmem : path ∈ processed
  · rw [if_pos hmem] at h; simp at h
  · rw [if_neg hmem] at h
    cases hdoc : lookupDoc fs path with
    | none => rw [hdoc] at h; simp at h
    | some doc =>
      rw [hdoc] at h
      dsimp only at h
      by_cases hempty :
          ((doc.guidelines.getD []).isEmpty && (doc.includes.getD []).isEmpty) = true
      · rw [if_pos hempty] at h; simp at h
      · rw [if_neg hempty] at h
        cases hloc : parseLocals path (doc.guidelines.getD []) with
        | error e => rw [hloc] at h; simp at h
        | ok l =>
          rw [hloc] at h
          dsimp only at h
          simp only [Except.ok.injEq, Prod.mk.injEq] at h
          exact ⟨h.2.symm, hmem⟩

lemma processIncludes_ok_inv {fs : FS} {refs processed : List String}
    {s : List (String × List Guideline)} {pr' : List String}
    (h : processIncludes fs refs processed = .ok (s, pr')) :
    (∀ q ∈ processed, q ∈ pr') ∧
    (∀ ref ∈ refs, ∀ p, resolveBuiltinInclude fs ref = .ok p → p ∈ pr') := by
  induction refs generalizing processed s with
  | nil =>
    simp only [processIncludes, Except.ok.injEq, Prod.mk.injEq] at h
    obtain ⟨_, hp⟩ := h
    subst hp
    exact ⟨fun q hq => hq, fun ref href => by simp at href⟩
  | cons r rest ih =>
    unfold processIncludes at h
    cases hres : resolveBuiltinInclude fs r with
    | error e => rw [hres] at h; simp at h
    | ok ipath =>
      rw [hres] at h
      dsimp only at h
      by_cases hmem : ipath ∈ processed
      · rw [if_pos hmem] at h; simp at h
      · rw [if_neg hmem] at h
        cases hpf : parseIncludedFile fs ipath processed with
        | error e => rw [hpf] at h; simp at h
        | ok res1 =>
          obtain ⟨gs1, pr1⟩ := res1
          rw [hpf] at h
          dsimp only at h
          cases hrec : processIncludes fs rest pr1 with
          | error e => rw [hrec] at h; simp at h
          | ok res2 =>
            obtain ⟨more, prF⟩ := res2
            rw [hrec] at h
            dsimp only at h
            simp only [Except.ok.injEq, Prod.mk.injEq] at h
            obtain ⟨_, hpF⟩ := h
            subst hpF
            obtain ⟨hpr1, _⟩ := parseIncludedFile_ok_inv hpf
            obtain ⟨hmono, hmem2⟩ := ih hrec
            subst hpr1
            constructor
            · intro q hq
              exact hmono q (by simp [hq])
            · intro ref href p hp
              rcases List.mem_cons.mp href with href | href
              · subst href
                rw [hres] at hp
                simp only [Except.ok.injEq] at hp
                subst hp
                exact hmono ipath (by simp)
              · exact hmem2 ref href p hp

lemma processIncludes_cons (fs : FS) (r : String) (refs processed : List String) :
    processIncludes fs (r :: refs) processed =
      match resolveBuiltinInclude fs r with
      | .error e => .error e
      | .ok ipath =>
        if ipath ∈ processed then .error (.circularInclude ipath)
        else
          match parseIncludedFile fs ipath processed with
          | .error e => .error e
          | .ok (gs, processed') =>
            match processIncludes fs refs processed' with
            | .error e => .error e
            | .ok (more, processedF) => .ok ((ipath, gs) :: more, processedF) := rfl

lemma processIncludes_append {fs : FS} {l1 l2 processed : List String}
    {s1 : List (String × List Guideline)} {pr1 : List String}
    (h : processIncludes fs l1 processed = .ok (s1, pr1)) :
    processIncludes fs (l1 ++ l2) processed =
      match processIncludes fs l2 pr1 with
      | .ok (s2, pr2) => .ok (s1 ++ s2, pr2)
      | .error e => .error e := by
  induction l1 generalizing processed s1 with
  | nil =>
    simp only [processIncludes, Except.ok.injEq, Prod.mk.injEq] at h
    obtain ⟨hs, hp⟩ := h
    subst hs; subst hp
    simp only [List.nil_append]
    cases processIncludes fs l2 processed with
    | error e => rfl
    | ok res => obtain ⟨s2, pr2⟩ := res; simp
  | cons r rest ih =>
    rw [List.cons_append, processIncludes_cons]
    rw [processIncludes_cons] at h
    cases hres : resolveBuiltinInclude fs r with
    | error e => rw [hres] at h; simp at h
    | ok ipath =>
      rw [hres] at h
      dsimp only at h ⊢
      by_cases hmem : ipath ∈ processed
      · rw [if_pos hmem] at h; simp at h
      · rw [if_neg hmem] at h
        rw [if_neg hmem]
        cases hpf : parseIncludedFile fs ipath processed with
        | error e => rw [hpf] at h; simp at h
        | ok res1 =>
          obtain ⟨gs1, pr2⟩ := res1
          rw [hpf] at h
          dsimp only at h ⊢
          cases hrec : processIncludes fs rest pr2 with
          | error e => rw [hrec] at h; simp at h
          | ok res2 =>
            obtain ⟨more, prF⟩ := res2
            rw [hrec] at h
            dsimp only at h
            simp only [Except.ok.injEq, Prod.mk.injEq] at h
            obtain ⟨hs, hp⟩ := h
            subst hp
            rw [ih hrec]
            cases processIncludes fs l2 prF with
            | error e => simp
            | ok res3 =>
              obtain ⟨s3, pr3⟩ := res3
              simp [← hs]

/-! ## Helper lemmas: the manager fold over documents -/

lemma loadFile_ok_inv {fs : FS} {file : String} {st st' : LoadState}
    (h : loadFile fs file st = .ok st') :
    ∃ locals incSets pr',
      parseTopLevel fs file st.processed = .ok (locals, incSets, pr') ∧
      st'.processed = pr' ∧
      st'.sets = st.sets
        ++ (incSets.filter (fun x => !x.2.isEmpty)).map
            (fun x => (includeSetName file x.1, x.2))
        ++ (if locals.isEmpty then []
            else [("project/" ++ fileName file, locals)]) ∧
      (ManagerInv st → ManagerInv st') := by
  unfold loadFile at h
  cases hpt : parseTopLevel fs file st.processed with
  | error e => rw [hpt] at h; simp at h
  | ok res =>
    obtain ⟨locals, incSets, pr'⟩ := res
    rw [hpt] at h
    dsimp only at h
    cases hadd : addIncludeSets file incSets ⟨st.sets, st.seenIds, pr'⟩ with
    | error e => rw [hadd] at h; simp at h
    | ok st2 =>
      rw [hadd] at h
      dsimp only at h
      obtain ⟨hsets2, hproc2, hinv2⟩ := addIncludeSets_ok hadd
      have hinv2' : ManagerInv st → ManagerInv st2 := fun hi => hinv2 ⟨hi.1, hi.2⟩
      by_cases hloc : locals.isEmpty
      · rw [if_pos hloc] at h
        simp only [Except.ok.injEq] at h
        subst h
        refine ⟨locals, incSets, pr', rfl, by simpa using hproc2, ?_, hinv2'⟩
        rw [hsets2]
        simp [hloc]
      · rw [if_neg hloc] at h
        obtain ⟨ha1, _, ha3, _, _⟩ := addSet_ok h
        refine ⟨locals, incSets, pr', rfl, by rw [ha3, hproc2], ?_,
          fun hi => addSet_inv (hinv2' hi) h⟩
        rw [ha1, hsets2]
        simp [hloc]

lemma loadFiles_inv {fs : FS} {files : List String} {st st' : LoadState}
    (h : loadFiles fs files st = .ok st') (hinv : ManagerInv st) :
    ManagerInv st' := by
  induction files generalizing st with
  | nil =>
    simp only [loadFiles, Except.ok.injEq] at h
    exact h ▸ hinv
  | cons f rest ih =>
    unfold loadFiles at h
    cases hf : loadFile fs f st with
    | error e => rw [hf] at h; simp at h
    | ok st1 =>
      rw [hf] at h
      dsimp only at h
      obtain ⟨_, _, _, _, _, _, hi⟩ := loadFile_ok_inv hf
      exact ih h (hi hinv)

/-- Witness for C9 at a concrete input: with one violation of each
confidence and an always-succeeding VCS client, publishing the full list
equals publishing just the high-confidence one. -/
theorem claim_C9_confidence_filter_witness :
    post_feedback (fun _ => PostOutcome.ok)
        [⟨"a.py", 1, "x/a", "r", "low"⟩, ⟨"b.py", 2, "x/b", "r", "medium"⟩,
         ⟨"c.py", 3, "x/c", "r", "high"⟩]
      = post_feedback (fun _ => PostOutcome.ok)
          ([⟨"a.py", 1, "x/a", "r", "low"⟩, ⟨"b.py", 2, "x/b", "r", "medium"⟩,
            ⟨"c.py", 3, "x/c", "r", "high"⟩].filter
            (fun v => v.confidence == "high")) :=
  (claim_C9_confidence_filter (fun _ => PostOutcome.ok)
    [⟨"a.py", 1, "x/a", "r", "low"⟩, ⟨"b.py", 2, "x/b", "r", "medium"⟩,
     ⟨"c.py", 3, "x/c", "r", "high"⟩]).2 (by decide)

/-! ## Claim theorems: the guidelines manager and parser -/

/-- C1: the manager threads one global seen-id set across all documents of a
load: (i) whenever loading succeeds, the ids across all produced sets are
pairwise distinct (each appears exactly once); (ii) the duplicate-id checker
fails naming the offending id and the current document's display name; (iii)
it succeeds exactly when the incoming guidelines are duplicate free and
disjoint from the ids seen so far; (iv) in the repo's own scenario — a
document whose include and local guidelines both yield
`security/sql-injection` — loading fails with that duplicate-id error naming
the document's display name. -/
theorem claim_C1_global_seen_ids :
    (∀ fs files sets, loadProjectGuidelines fs files = .ok sets →
      (allSetIds sets).Nodup) ∧
    (∀ gs seen name e, checkDuplicateIds gs seen name = .error e →
      ∃ i, e = .duplicateId i name ∧ i ∈ gs.map Guideline.id) ∧
    (∀ gs seen name, (∃ seen', checkDuplicateIds gs seen name = .ok seen') ↔
      ((gs.map Guideline.id).Nodup ∧ ∀ g ∈ gs, g.id ∉ seen)) ∧
    loadProjectGuidelines fsParentIncludeClash ["security.yaml"]
      = .error (.duplicateId "security/sql-injection" "project/security.yaml") := by
  refine ⟨?_, ?_, ?_, rfl⟩
  · intro fs files sets h
    unfold loadProjectGuidelines at h
    cases hl : loadFiles fs files ⟨[], [], []⟩ with
    | error e => rw [hl] at h; simp at h
    | ok st =>
      rw [hl] at h
      dsimp only at h
      simp only [Except.ok.injEq] at h
      subst h
      have hinv : ManagerInv st :=
        loadFiles_inv hl ⟨by simp [allSetIds], List.nodup_nil⟩
      have h2 := hinv.2
      rw [hinv.1] at h2
      exact List.nodup_reverse.mp h2
  · intro gs seen name e h
    exact checkDuplicateIds_error h
  · intro gs seen name
    constructor
    · rintro ⟨seen', h⟩
      obtain ⟨_, hnd, hns⟩ := checkDuplicateIds_ok h
      exact ⟨hnd, hns⟩
    · rintro ⟨hnd, hns⟩
      exact ⟨_, checkDuplicateIds_ok_of hnd hns⟩

/-- Witness for C1 at a concrete input: a successful load whose produced
sets carry pairwise distinct ids. -/
theorem claim_C1_global_seen_ids_witness :
    (allSetIds
      [("project/custom.yaml→security.yaml",
         [⟨"security/sql-injection", securityDescription⟩]),
       ("project/custom.yaml",
         [⟨"custom/custom-rule", "Custom project rule for testing."⟩])]).Nodup :=
  claim_C1_global_seen_ids.1 fsCustomSecurity ["custom.yaml"] _ rfl

/-- C2 counterexample: `custom.yaml` declares exactly one include
(`builtin:empty`, a bundle with no guidelines of its own), yet the produced
collection contains no set `project/custom.yaml→empty.yaml` — the claim's
"one named set per include" fails for a non-contributing include. -/
theorem claim_C2_counterexample :
    lookupDoc fsEmptyInclude "custom.yaml"
      = some ⟨some ["builtin:empty"],
          some [⟨"custom-rule", "Custom project rule for testing."⟩]⟩ ∧
    loadProjectGuidelines fsEmptyInclude ["custom.yaml"]
      = .ok [("project/custom.yaml",
          [⟨"custom/custom-rule", "Custom project rule for testing."⟩])] ∧
    "project/custom.yaml→empty.yaml" ∉
      ([("project/custom.yaml",
          [(⟨"custom/custom-rule", "Custom project rule for testing."⟩ : Guideline)])].map
        Prod.fst) :=
  ⟨rfl, rfl, by decide⟩

/-- C2 amended: for a project document, the produced collection is exactly
one named set `project/<filename>→<include-target-filename>` per include
whose bundle contributes at least one guideline (in declaration order),
followed by the set `project/<filename>` with just the local guidelines —
the latter present if and only if the document defines at least one local
guideline; the spec's end-to-end `custom.yaml` scenario yields exactly its
two expected sets. -/
theorem claim_C2_per_include_sets :
    (∀ fs file sets locals incSets pr,
      parseTopLevel fs file [] = .ok (locals, incSets, pr) →
      loadProjectGuidelines fs [file] = .ok sets →
      sets = (incSets.filter (fun x => !x.2.isEmpty)).map
              (fun x => (includeSetName file x.1, x.2))
            ++ (if locals.isEmpty then []
                else [("project/" ++ fileName file, locals)])) ∧
    loadProjectGuidelines fsCustomSecurity ["custom.yaml"]
      = .ok [("project/custom.yaml→security.yaml",
              [⟨"security/sql-injection", securityDescription⟩]),
             ("project/custom.yaml",
              [⟨"custom/custom-rule", "Custom project rule for testing."⟩])] := by
  refine ⟨?_, rfl⟩
  intro fs file sets locals incSets pr hpt hload
  unfold loadProjectGuidelines at hload
  cases hl : loadFiles fs [file] ⟨[], [], []⟩ with
  | error e => rw [hl] at hload; simp at hload
  | ok st =>
    rw [hl] at hload
    dsimp only at hload
    simp only [Except.ok.injEq] at hload
    subst hload
    unfold loadFiles at hl
    cases hf : loadFile fs file ⟨[], [], []⟩ with
    | error e => rw [hf] at hl; simp at hl
    | ok st1 =>
      rw [hf] at hl
      dsimp only at hl
      unfold loadFiles at hl
      simp only [Except.ok.injEq] at hl
      subst hl
      obtain ⟨l2, inc2, pr2, hpt2, _, hsets, _⟩ := loadFile_ok_inv hf
      have hpt2' : parseTopLevel fs file [] = .ok (l2, inc2, pr2) := hpt2
      rw [hpt] at hpt2'
      simp only [Except.ok.injEq, Prod.mk.injEq] at hpt2'
      obtain ⟨hl2, hinc2, _⟩ := hpt2'
      rw [hsets, ← hl2, ← hinc2]
      simp

/-- Witness for C2's amended theorem at the concrete `custom.yaml` scenario:
the produced sets equal the include-derived set followed by the local set. -/
theorem claim_C2_per_include_sets_witness :
    [("project/custom.yaml→security.yaml",
       [(⟨"security/sql-injection", securityDescription⟩ : Guideline)]),
     ("project/custom.yaml",
       [(⟨"custom/custom-rule", "Custom project rule for testing."⟩ : Guideline)])]
    = ([(".builtin/security.yaml",
          [(⟨"security/sql-injection", securityDescription⟩ : Guideline)])].filter
          (fun x => !x.2.isEmpty)).map
        (fun x => (includeSetName "custom.yaml" x.1, x.2))
      ++ (if ([(⟨"custom/custom-rule",
              "Custom project rule for testing."⟩ : Guideline)]).isEmpty then []
          else [("project/" ++ fileName "custom.yaml",
              [(⟨"custom/custom-rule", "Custom project rule for testing."⟩ : Guideline)])]) :=
  claim_C2_per_include_sets.1 fsCustomSecurity "custom.yaml" _ _ _ _ rfl rfl

/-- C3: (i) a document already visited in the current parse chain fails with
a circular-include error naming it; (ii) whenever a document's includes
chain reaches an already-visited document — in particular a document whose
include resolves back to itself — parsing fails with a circular-include
error naming the offending path (and in particular never returns a
guideline list; non-termination is impossible as `parseTopLevel` is a total
function). -/
theorem claim_C3_circular_includes :
    (∀ fs path processed, path ∈ processed →
      parseTopLevel fs path processed = .error (.circularInclude path)) ∧
    (∀ fs path processed (doc : YamlDoc) pre ref rest locals sets1 processed1 p,
      path ∉ processed →
      lookupDoc fs path = some doc →
      doc.includes = some (pre ++ ref :: rest) →
      parseLocals path (doc.guidelines.getD []) = .ok locals →
      processIncludes fs pre (path :: processed) = .ok (sets1, processed1) →
      resolveBuiltinInclude fs ref = .ok p →
      p ∈ processed1 →
      parseTopLevel fs path processed = .error (.circularInclude p)) := by
  constructor
  · intro fs path processed hmem
    unfold parseTopLevel
    rw [if_pos hmem]
  · intro fs path processed doc pre ref rest locals sets1 processed1 p
      hmem hdoc hinc hloc hpre hres hp
    unfold parseTopLevel
    rw [if_neg hmem, hdoc]
    dsimp only
    rw [hinc]
    simp only [Option.getD_some]
    rw [if_neg (by simp)]
    rw [hloc]
    dsimp only
    rw [processIncludes_append hpre, processIncludes_cons, hres]
    dsimp only
    rw [if_pos hp]

/-- Witness for C3 at concrete inputs: an already-visited path fails, and
the repo's self-include scenario (`self-include-test`) fails with a
circular-include error naming the document itself. -/
theorem claim_C3_circular_includes_witness :
    parseTopLevel fsSelfInclude "a.yaml" ["a.yaml"]
      = .error (.circularInclude "a.yaml") ∧
    parseTopLevel fsSelfInclude ".builtin/selftest.yaml" []
      = .error (.circularInclude ".builtin/selftest.yaml") := by
  constructor
  · exact claim_C3_circular_includes.1 fsSelfInclude "a.yaml" ["a.yaml"] (by simp)
  · exact claim_C3_circular_includes.2 fsSelfInclude ".builtin/selftest.yaml" []
      ⟨some ["builtin:selftest"],
        some [⟨"test-rule", "Test rule for circular include detection."⟩]⟩
      [] "builtin:selftest" []
      [⟨"selftest/test-rule", "Test rule for circular include detection."⟩]
      [] [".builtin/selftest.yaml"] ".builtin/selftest.yaml"
      (by simp) rfl rfl rfl rfl rfl (by simp)

/-- C10: the visited set persists across sibling documents within one load:
whenever the first document's processing visited a path `p` (in particular
by resolving one of its own includes to `p`) and a second document's first
include resolves to the same `p`, loading the two documents together fails
with a circular-include error naming `p`; concretely, two sibling files
that both declare `includes: [builtin:security]` fail with a circular
include naming the built-in `security.yaml`. -/
theorem claim_C10_shared_visited_set :
    (∀ fs f1 f2 (doc1 : YamlDoc) refs1 ref1 p st1 (doc2 : YamlDoc) ref2 rest2 locals2,
      lookupDoc fs f1 = some doc1 →
      doc1.includes = some refs1 →
      ref1 ∈ refs1 →
      resolveBuiltinInclude fs ref1 = .ok p →
      loadFile fs f1 ⟨[], [], []⟩ = .ok st1 →
      f2 ∉ st1.processed →
      lookupDoc fs f2 = some doc2 →
      doc2.includes = some (ref2 :: rest2) →
      parseLocals f2 (doc2.guidelines.getD []) = .ok locals2 →
      resolveBuiltinInclude fs ref2 = .ok p →
      loadProjectGuidelines fs [f1, f2] = .error (.circularInclude p)) ∧
    loadProjectGuidelines fsSharedInclude ["file1.yaml", "file2.yaml"]
      = .error (.circularInclude ".builtin/security.yaml") := by
  refine ⟨?_, rfl⟩
  intro fs f1 f2 doc1 refs1 ref1 p st1 doc2 ref2 rest2 locals2
    hdoc1 hinc1 href1 hres1 hload1 hf2mem hdoc2 hinc2 hloc2 hres2
  -- p is in the visited set after processing f1
  obtain ⟨l1, i1, pr1, hpt1, hproc1, _, _⟩ := loadFile_ok_inv hload1
  have hpt1' : parseTopLevel fs f1 [] = .ok (l1, i1, pr1) := hpt1
  obtain ⟨_, doc1', hdoc1', _, hpi1⟩ := parseTopLevel_ok_inv hpt1'
  rw [hdoc1] at hdoc1'
  simp only [Option.some.injEq] at hdoc1'
  subst hdoc1'
  have hrefmem : ref1 ∈ doc1.includes.getD [] := by
    rw [hinc1]; simpa using href1
  have hpmem : p ∈ st1.processed := by
    rw [hproc1]
    exact (processIncludes_ok_inv hpi1).2 ref1 hrefmem p hres1
  -- the second document's first include now hits the visited set
  have hPT2 : parseTopLevel fs f2 st1.processed = .error (.circularInclude p) := by
    unfold parseTopLevel
    rw [if_neg hf2mem, hdoc2]
    dsimp only
    rw [hinc2]
    simp only [Option.getD_some]
    rw [if_neg (by simp)]
    rw [hloc2]
    dsimp only
    rw [processIncludes_cons, hres2]
    dsimp only
    rw [if_pos (by simp [hpmem])]
  have hLF2 : loadFile fs f2 st1 = .error (.circularInclude p) := by
    unfold loadFile
    rw [hPT2]
  unfold loadProjectGuidelines loadFiles
  rw [hload1]
  dsimp only
  unfold loadFiles
  rw [hLF2]

/-- Witness for C10 at the concrete shared-include scenario, naming the
intermediate accumulator state explicitly. -/
theorem claim_C10_shared_visited_set_witness :
    loadProjectGuidelines fsSharedInclude ["file1.yaml", "file2.yaml"]
      = .error (.circularInclude ".builtin/security.yaml") :=
  claim_C10_shared_visited_set.1 fsSharedInclude "file1.yaml" "file2.yaml"
    ⟨some ["builtin:security"], none⟩ ["builtin:security"] "builtin:security"
    ".builtin/security.yaml"
    ⟨[("project/file1.yaml→security.yaml",
        [⟨"security/sql-injection", securityDescription⟩])],
      ["security/sql-injection"],
      [".builtin/security.yaml", "file1.yaml"]⟩
    ⟨some ["builtin:security"], none⟩ "builtin:security" [] []
    rfl rfl (by simp) rfl rfl (by decide) rfl rfl rfl rfl

/-! ## Helper lemmas: label validation and error kinds -/

lemma checkLabels_cons_badfmt {path : String} {x : GuidelineEntry}
    {rest : List GuidelineEntry} {i : Nat} {seen : List String}
    (hfmt : labelFormatOk x.label = false) :
    checkLabels path i seen (x :: rest)
      = .error (.labelFormatError path i x.label) := by
  simp [checkLabels, hfmt]

lemma checkLabels_cons_dup {path : String} {x : GuidelineEntry}
    {rest : List GuidelineEntry} {i : Nat} {seen : List String}
    (hfmt : labelFormatOk x.label = true) (hmem : x.label ∈ seen) :
    checkLabels path i seen (x :: rest)
      = .error (.duplicateLabel path x.label) := by
  simp [checkLabels, hfmt, hmem]

lemma checkLabels_cons_step {path : String} {x : GuidelineEntry}
    {rest : List GuidelineEntry} {i : Nat} {seen : List String}
    (hfmt : labelFormatOk x.label = true) (hmem : x.label ∉ seen) :
    checkLabels path i seen (x :: rest)
      = checkLabels path (i + 1) (x.label :: seen) rest := by
  simp [checkLabels, hfmt, hmem]

lemma checkLabels_ok_iff {path : String} {entries : List GuidelineEntry}
    {i : Nat} {seen : List String} :
    checkLabels path i seen entries = .ok () ↔
      ((∀ e ∈ entries, labelFormatOk e.label = true) ∧
       (entries.map GuidelineEntry.label).Nodup ∧
       (∀ e ∈ entries, e.label ∉ seen)) := by
  induction entries generalizing i seen with
  | nil => simp [checkLabels]
  | cons e rest ih =>
    cases hfmt : labelFormatOk e.label with
    | false =>
      rw [checkLabels_cons_badfmt hfmt]
      constructor
      · intro h; simp at h
      · rintro ⟨hall, _, _⟩
        have := hall e (by simp)
        rw [hfmt] at this
        simp at this
    | true =>
      by_cases hmem : e.label ∈ seen
      · rw [checkLabels_cons_dup hfmt hmem]
        constructor
        · intro h; simp at h
        · rintro ⟨_, _, hns⟩
          exact absurd hmem (hns e (by simp))
      · rw [checkLabels_cons_step hfmt hmem]
        rw [ih]
        constructor
        · rintro ⟨hall, hnd, hns⟩
          refine ⟨?_, ?_, ?_⟩
          · intro e' he'
            rcases List.mem_cons.mp he' with he' | he'
            · subst he'; exact hfmt
            · exact hall e' he'
          · rw [List.map_cons, List.nodup_cons]
            refine ⟨?_, hnd⟩
            intro hin
            obtain ⟨e', he', heq⟩ := List.mem_map.mp hin
            exact hns e' he' (by simp [heq])
          · intro e' he'
            rcases List.mem_cons.mp he' with he' | he'
            · subst he'; exact hmem
            · intro hc
              exact hns e' he' (by simp [hc])
        · rintro ⟨hall, hnd, hns⟩
          rw [List.map_cons, List.nodup_cons] at hnd
          refine ⟨fun e' he' => hall e' (by simp [he']), hnd.2, ?_⟩
          intro e' he' hc
          rcases List.mem_cons.mp hc with hc | hc
          · exact hnd.1 (hc ▸ List.mem_map_of_mem GuidelineEntry.label he')
          · exact hns e' (by simp [he']) hc

lemma checkLabels_error_kinds {path : String} {entries : List GuidelineEntry}
    {i : Nat} {seen : List String} {e : LoadError}
    (h : checkLabels path i seen entries = .error e) :
    (∃ j lab, e = .labelFormatError path j lab) ∨
    (∃ lab, e = .duplicateLabel path lab ∧
      lab ∈ entries.map GuidelineEntry.label) := by
  induction entries generalizing i seen with
  | nil => simp [checkLabels] at h
  | cons x rest ih =>
    cases hfmt : labelFormatOk x.label with
    | false =>
      rw [checkLabels_cons_badfmt hfmt] at h
      simp only [Except.error.injEq] at h
      exact Or.inl ⟨i, x.label, h.symm⟩
    | true =>
      by_cases hmem : x.label ∈ seen
      · rw [checkLabels_cons_dup hfmt hmem] at h
        simp only [Except.error.injEq] at h
        exact Or.inr ⟨x.label, h.symm, by simp⟩
      · rw [checkLabels_cons_step hfmt hmem] at h
        rcases ih h with h' | ⟨lab, helab, hmem'⟩
        · exact Or.inl h'
        · exact Or.inr ⟨lab, helab, by simp [hmem']⟩

lemma checkLabels_dup_inv {path : String} {entries : List GuidelineEntry}
    {i : Nat} {seen : List String} {path' lab : String}
    (h : checkLabels path i seen entries = .error (.duplicateLabel path' lab)) :
    lab ∈ entries.map GuidelineEntry.label ∧
    (lab ∈ seen ∨ ¬ (entries.map GuidelineEntry.label).Nodup) := by
  induction entries generalizing i seen with
  | nil => simp [checkLabels] at h
  | cons x rest ih =>
    cases hfmt : labelFormatOk x.label with
    | false =>
      rw [checkLabels_cons_badfmt hfmt] at h
      simp at h
    | true =>
      by_cases hmem : x.label ∈ seen
      · rw [checkLabels_cons_dup hfmt hmem] at h
        simp only [Except.error.injEq, LoadError.duplicateLabel.injEq] at h
        obtain ⟨_, hlab⟩ := h
        subst hlab
        exact ⟨by simp, Or.inl hmem⟩
      · rw [checkLabels_cons_step hfmt hmem] at h
        obtain ⟨hmemr, hrest⟩ := ih h
        refine ⟨by simp [hmemr], ?_⟩
        rcases hrest with hin | hnnd
        · rcases List.mem_cons.mp hin with hin | hin
          · right
            rw [List.map_cons, List.nodup_cons]
            rintro ⟨hni, _⟩
            exact hni (hin ▸ hmemr)
          · exact Or.inl hin
        · right
          rw [List.map_cons, List.nodup_cons]
          rintro ⟨_, hnd⟩
          exact hnnd hnd

lemma buildGuidelines_error_kind {path stem : String}
    {entries : List GuidelineEntry} {i : Nat} {e : LoadError}
    (h : buildGuidelines path stem i entries = .error e) :
    ∃ j, e = .invalidGuideline path j := by
  induction entries generalizing i with
  | nil => simp [buildGuidelines] at h
  | cons x rest ih =>
    unfold buildGuidelines at h
    cases hmk : mkGuideline (stem ++ "/" ++ x.label) x.description with
    | none =>
      rw [hmk] at h
      simp only [Except.error.injEq] at h
      exact ⟨i, h.symm⟩
    | some g =>
      rw [hmk] at h
      dsimp only at h
      cases hrec : buildGuidelines path stem (i + 1) rest with
      | error e' =>
        rw [hrec] at h
        simp only [Except.error.injEq] at h
        subst h
        exact ih hrec
      | ok gs => rw [hrec] at h; simp at h

lemma parseLocals_error_dup_inv {path : String} {entries : List GuidelineEntry}
    {path' lab : String}
    (h : parseLocals path entries = .error (.duplicateLabel path' lab)) :
    ¬ (entries.map GuidelineEntry.label).Nodup := by
  unfold parseLocals at h
  cases hcl : checkLabels path 0 [] entries with
  | error e =>
    rw [hcl] at h
    simp only [Except.error.injEq] at h
    subst h
    obtain ⟨_, hdup⟩ := checkLabels_dup_inv hcl
    rcases hdup with hdup | hdup
    · simp at hdup
    · exact hdup
  | ok u =>
    obtain ⟨⟩ := u
    rw [hcl] at h
    dsimp only at h
    obtain ⟨j, hj⟩ := buildGuidelines_error_kind h
    simp at hj

lemma resolveBuiltinInclude_error_kind {fs : FS} {ref : String} {e : LoadError}
    (h : resolveBuiltinInclude fs ref = .error e) :
    e = .unsupportedInclude ref ∨ e = .builtinNotFound ref := by
  unfold resolveBuiltinInclude at h
  by_cases hb : pyStartsWith ref "builtin:" = true
  · rw [if_pos hb] at h
    dsimp only at h
    split at h
    · simp at h
    · split at h
      · simp at h
      · simp only [Except.error.injEq] at h
        exact Or.inr h.symm
  · rw [if_neg hb] at h
    simp only [Except.error.injEq] at h
    exact Or.inl h.symm

lemma parseIncludedFile_error_paths {fs : FS} {path : String}
    {processed : List String} {e : LoadError}
    (h : parseIncludedFile fs path processed = .error e) :
    ∀ q lab, q ≠ path → e ≠ .duplicateLabel q lab := by
  intro q lab hq
  unfold parseIncludedFile at h
  by_cases hmem : path ∈ processed
  · rw [if_pos hmem] at h
    simp only [Except.error.injEq] at h
    subst h
    simp
  · rw [if_neg hmem] at h
    cases hdoc : lookupDoc fs path with
    | none =>
      rw [hdoc] at h
      simp only [Except.error.injEq] at h
      subst h
      simp
    | some doc =>
      rw [hdoc] at h
      dsimp only at h
      by_cases hempty :
          ((doc.guidelines.getD []).isEmpty && (doc.includes.getD []).isEmpty) = true
      · rw [if_pos hempty] at h
        simp only [Except.error.injEq] at h
        subst h
        simp
      · rw [if_neg hempty] at h
        cases hloc : parseLocals path (doc.guidelines.getD []) with
        | error e' =>
          rw [hloc] at h
          simp only [Except.error.injEq] at h
          subst h
          unfold parseLocals at hloc
          cases hcl : checkLabels path 0 [] (doc.guidelines.getD []) with
          | error e2 =>
            rw [hcl] at hloc
            simp only [Except.error.injEq] at hloc
            subst hloc
            rcases checkLabels_error_kinds hcl with ⟨j, lab', hk⟩ | ⟨lab', hk, _⟩
            · subst hk
              intro hc
              simp at hc
            · subst hk
              intro hc
              simp only [LoadError.duplicateLabel.injEq] at hc
              exact hq hc.1.symm
          | ok u =>
            obtain ⟨⟩ := u
            rw [hcl] at hloc
            dsimp only at hloc
            obtain ⟨j, hj⟩ := buildGuidelines_error_kind hloc
            subst hj
            simp
        | ok gs => rw [hloc] at h; simp at h

lemma processIncludes_error_no_dupLabel {fs : FS} {refs processed : List String}
    {e : LoadError} (h : processIncludes fs refs processed = .error e) :
    ∀ q lab, q ∈ processed → e ≠ .duplicateLabel q lab := by
  induction refs generalizing processed with
  | nil => simp [processIncludes] at h
  | cons r rest ih =>
    intro q lab hq
    rw [processIncludes_cons] at h
    cases hres : resolveBuiltinInclude fs r with
    | error e' =>
      rw [hres] at h
      simp only [Except.error.injEq] at h
      subst h
      rcases resolveBuiltinInclude_error_kind hres with hk | hk <;> simp [hk]
    | ok ipath =>
      rw [hres] at h
      dsimp only at h
      by_cases hmem : ipath ∈ processed
      · rw [if_pos hmem] at h
        simp only [Except.error.injEq] at h
        subst h
        simp
      · rw [if_neg hmem] at h
        cases hpf : parseIncludedFile fs ipath processed with
        | error e' =>
          rw [hpf] at h
          simp only [Except.error.injEq] at h
          subst h
          exact parseIncludedFile_error_paths hpf q lab
            (fun hqq => hmem (hqq ▸ hq))
        | ok res =>
          obtain ⟨gs, pr'⟩ := res
          rw [hpf] at h
          dsimp only at h
          cases hrec : processIncludes fs rest pr' with
          | error e' =>
            rw [hrec] at h
            simp only [Except.error.injEq] at h
            subst h
            obtain ⟨hpr', _⟩ := parseIncludedFile_ok_inv hpf
            exact ih hrec q lab (by simp [hpr', hq])
          | ok res2 =>
            obtain ⟨more, prF⟩ := res2
            rw [hrec] at h
            simp at h

lemma checkLabels_fmt_inv {path : String} {entries : List GuidelineEntry}
    {i : Nat} {seen : List String} {p' lab : String} {j : Nat}
    (h : checkLabels path i seen entries = .error (.labelFormatError p' j lab)) :
    ∃ x ∈ entries, labelFormatOk x.label = false := by
  induction entries generalizing i seen with
  | nil => simp [checkLabels] at h
  | cons x rest ih =>
    cases hfmt : labelFormatOk x.label with
    | false => exact ⟨x, by simp, hfmt⟩
    | true =>
      by_cases hmem : x.label ∈ seen
      · rw [checkLabels_cons_dup hfmt hmem] at h
        simp at h
      · rw [checkLabels_cons_step hfmt hmem] at h
        obtain ⟨x', hx', hf'⟩ := ih h
        exact ⟨x', by simp [hx'], hf'⟩

/-- C8: for a document whose `guidelines` list carries two entries with the
same (well-formed) label, parsing fails with a duplicate-label error naming
the document and a repeated label, whatever the entries' descriptions
(duplicate detection inspects labels only); and a document whose labels are
pairwise distinct never produces a duplicate-label error naming it. -/
theorem claim_C8_duplicate_labels :
    (∀ fs path (doc : YamlDoc) entries,
      lookupDoc fs path = some doc →
      doc.guidelines = some entries →
      (∀ e ∈ entries, labelFormatOk e.label = true) →
      ¬ (entries.map GuidelineEntry.label).Nodup →
      ∃ lab, parseTopLevel fs path [] = .error (.duplicateLabel path lab) ∧
        lab ∈ entries.map GuidelineEntry.label) ∧
    (∀ fs path (doc : YamlDoc) entries,
      lookupDoc fs path = some doc →
      doc.guidelines = some entries →
      (entries.map GuidelineEntry.label).Nodup →
      ∀ lab, parseTopLevel fs path [] ≠ .error (.duplicateLabel path lab)) := by
  constructor
  · intro fs path doc entries hdoc hguid hfmt hnodup
    have hne : entries ≠ [] := by
      intro h
      subst h
      exact hnodup (by simp)
    have hie : entries.isEmpty = false := by
      cases entries with
      | nil => exact absurd rfl hne
      | cons _ _ => rfl
    cases hcl : checkLabels path 0 [] entries with
    | ok u =>
      obtain ⟨⟩ := u
      obtain ⟨_, hnd, _⟩ := checkLabels_ok_iff.mp hcl
      exact absurd hnd hnodup
    | error e =>
      rcases checkLabels_error_kinds hcl with ⟨j, lab, hk⟩ | ⟨lab, hk, hlabmem⟩
      · subst hk
        obtain ⟨x, hx, hbad⟩ := checkLabels_fmt_inv hcl
        rw [hfmt x hx] at hbad
        simp at hbad
      · subst hk
        refine ⟨lab, ?_, hlabmem⟩
        have hpl : parseLocals path entries = .error (.duplicateLabel path lab) := by
          unfold parseLocals
          rw [hcl]
        unfold parseTopLevel
        rw [if_neg (by simp), hdoc]
        dsimp only
        rw [hguid]
        simp only [Option.getD_some]
        rw [if_neg (by simp [hie]), hpl]
  · intro fs path doc entries hdoc hguid hnodup lab hcontra
    unfold parseTopLevel at hcontra
    rw [if_neg (by simp), hdoc] at hcontra
    dsimp only at hcontra
    rw [hguid] at hcontra
    simp only [Option.getD_some] at hcontra
    by_cases hempty : (entries.isEmpty && (doc.includes.getD []).isEmpty) = true
    · rw [if_pos hempty] at hcontra
      simp at hcontra
    · rw [if_neg hempty] at hcontra
      cases hpl : parseLocals path entries with
      | error e =>
        rw [hpl] at hcontra
        simp only [Except.error.injEq] at hcontra
        subst hcontra
        exact absurd hnodup (parseLocals_error_dup_inv hpl)
      | ok locals =>
        rw [hpl] at hcontra
        dsimp only at hcontra
        cases hpi : processIncludes fs (doc.includes.getD []) (path :: []) with
        | error e =>
          rw [hpi] at hcontra
          simp only [Except.error.injEq] at hcontra
          subst hcontra
          exact processIncludes_error_no_dupLabel hpi path lab (by simp) rfl
        | ok res =>
          obtain ⟨s, pr⟩ := res
          rw [hpi] at hcontra
          simp at hcontra

/-- Witness for C8 at the repo's duplicate-label document (whose second
entry's description is not even valid): parsing fails with the
duplicate-label error. -/
theorem claim_C8_duplicate_labels_witness :
    ∃ lab, parseTopLevel fsDupLabels "dup.yaml" []
        = .error (.duplicateLabel "dup.yaml" lab) ∧
      lab ∈ [(⟨"same-label", "First occurrence description."⟩ : GuidelineEntry),
             ⟨"same-label", "x"⟩].map GuidelineEntry.label :=
  claim_C8_duplicate_labels.1 fsDupLabels "dup.yaml"
    ⟨none, some [⟨"same-label", "First occurrence description."⟩,
                 ⟨"same-label", "x"⟩]⟩
    [⟨"same-label", "First occurrence description."⟩, ⟨"same-label", "x"⟩]
    rfl rfl (by decide) (by decide)

end CodeYak
